import Mathlib

/-!
Shallow embedding of `grr/server/grr_response_server/file_store.py`
(the REL_DB-based file store): the `BlobStream` file-like reader, the
`AddFileWithUnknownHash` hash-composing writer, and `OpenFile`.

Modelling conventions:
* Byte strings are `List Nat`; blob ids are `Nat`.
* The blob backend `data_store.BLOBS.ReadBlobs` is a pure mapping
  `Nat → Option Bytes`; `none` models a missing blob (the Python backend
  maps a missing id to `None`).  `ReadBlobs(ids)` returns the dict
  `{id: backend(id) for id in ids}`, so `data[blob_id]` is modelled as a
  direct application `backend blob_id`; the iteration order over that
  dict only affects which missing id a `BlobNotFound` message names.
* The metadata mapping written by `WriteHashBlobReferences` is passed in
  and returned explicitly (`MetaDb`); a raised exception leaves it
  unchanged, exactly as in the Python code where the single write is the
  last statement of `AddFileWithUnknownHash`.
* Python exceptions are modelled with `Except PyError`; `PyError` also
  covers the builtin `IndexError` (raised by `self._blob_refs[-1]` on an
  empty list in `BlobStream.__init__`) and `ValueError` (raised by
  `Seek` on an unrecognized `whence`).
* `hashlib.sha256` is modelled by its stream of fed bytes: the running
  digest state is the concatenation of all `update` arguments, and the
  finalization `SHA256HashID.FromBytes(sha256.digest())` is an arbitrary
  function `H : Bytes → Bytes` passed as a parameter of
  `AddFileWithUnknownHash`.
* The `while` loop of `BlobStream.Read` is written with an explicit fuel
  argument; `Read` passes `length.toNat + 1` which strictly exceeds the
  possible number of iterations (each iteration that recurses appends at
  least one byte to `result`, and the loop only recurses while
  `result.tell() < length`), so the fuel never runs out and the function
  agrees with the unbounded `while` loop of the source.
-/

namespace FileStore

/-- Byte strings (`bytes` in Python). -/
abbrev Bytes := List Nat

/-- The blob backend `data_store.BLOBS`: maps a blob id to its bytes,
`none` when the blob is missing. -/
abbrev Backend := Nat → Option Bytes

/-- `rdf_objects.BlobReference`: placement of one chunk in the logical
file (fields as in the source: `offset`, `size`, `blob_id`). -/
structure BlobReference where
  offset : Nat
  size : Nat
  blob_id : Nat
deriving Repr, DecidableEq

/-- The metadata backend mapping maintained by
`data_store.REL_DB.WriteHashBlobReferences` /
`ReadHashBlobReferences`: hash bytes to the stored reference list. -/
abbrev MetaDb := Bytes → Option (List BlobReference)

/-- Python exceptions that the modelled code can raise.  The first four
are the `file_store.Error` subclasses defined in the source;
`indexError` and `valueError` model the Python builtins raised by
`self._blob_refs[-1]` on an empty list and by `Seek` on an unrecognized
`whence`. -/
inductive PyError where
  | blobNotFound (blob_id : Nat)
  | fileHasNoContent
  | missingBlobReferences
  | oversizedRead (length : Int) (limit : Nat)
  | indexError
  | valueError
deriving Repr, DecidableEq

/-- Python slicing `b[i:]` for an arbitrary (possibly negative) integer
start index. -/
def pySliceFrom (b : Bytes) (i : Int) : Bytes :=
  if 0 ≤ i then b.drop i.toNat else b.drop (b.length - (-i).toNat)

/-- State of a `BlobStream` ("File-like object for reading from
blobs").  `offset` is an `Int` because `Seek` stores any caller-supplied
cursor without validation; `length` is `_length`, computed once in
`__init__`; `current_ref`/`current_chunk` are the single-chunk cache. -/
structure BlobStream where
  blob_refs : List BlobReference
  hash_id : Bytes
  max_unbound_read : Nat
  offset : Int
  length : Nat
  current_ref : Option BlobReference
  current_chunk : Option Bytes
deriving Repr, DecidableEq

/-- `BlobStream.__init__`: stores the reference list and the hash id,
reads the configured `Server.max_unbound_read_size` (passed here as the
argument `max_unbound_read`), sets the cursor to `0` and computes
`_length = self._blob_refs[-1].offset + self._blob_refs[-1].size`.
On an empty list the indexing `self._blob_refs[-1]` raises `IndexError`.
No other validation of the reference list is performed. -/
def BlobStream.init (blob_refs : List BlobReference) (hash_id : Bytes)
    (max_unbound_read : Nat) : Except PyError BlobStream :=
  match blob_refs.getLast? with
  | none => .error .indexError
  | some last =>
      .ok { blob_refs := blob_refs
            hash_id := hash_id
            max_unbound_read := max_unbound_read
            offset := 0
            length := last.offset + last.size
            current_ref := none
            current_chunk := none }

/-- The chunk-locator predicate of `_GetChunk`:
`self._offset >= ref.offset and self._offset < (ref.offset + ref.size)`. -/
def coversOffset (off : Int) (r : BlobReference) : Bool :=
  decide ((r.offset : Int) ≤ off ∧ off < (r.offset : Int) + (r.size : Int))

/-- `BlobStream._GetChunk`: linear scan for the reference covering the
current offset; `(none, none)` when there is none.  On a cache miss
(`self._current_ref != found_ref`) it fetches
`data_store.BLOBS.ReadBlobs([found_ref.blob_id])[found_ref.blob_id]`
and updates the cache; on a hit it returns the cached chunk. -/
def BlobStream.GetChunk (s : BlobStream) (backend : Backend) :
    (Option Bytes × Option BlobReference) × BlobStream :=
  match s.blob_refs.find? (coversOffset s.offset) with
  | none => ((none, none), s)
  | some found =>
      if s.current_ref = some found then
        ((s.current_chunk, some found), s)
      else
        let chunk := backend found.blob_id
        ((chunk, some found),
         { s with current_ref := some found, current_chunk := chunk })

/-- The `while result.tell() < length` loop of `BlobStream.Read`, with
explicit fuel (see the module docstring: the fuel passed by `Read` never
runs out, so this equals the source's unbounded loop).  Python's
`if not chunk` is true both for `None` and for the empty byte string;
the `(some _, none)` arm is unreachable because `_GetChunk` returns a
chunk only together with its reference. -/
def BlobStream.ReadLoop (backend : Backend) (length : Int) :
    Nat → Bytes → BlobStream → Bytes × BlobStream
  | 0, result, s => (result, s)
  | fuel + 1, result, s =>
    if (result.length : Int) < length then
      match s.GetChunk backend with
      | ((none, _), s1) => (result, s1)
      | ((some _, none), s1) => (result, s1)
      | ((some chunk, some ref), s1) =>
        if chunk = [] then (result, s1)
        else
          let part := pySliceFrom chunk (s1.offset - (ref.offset : Int))
          if part = [] then (result, s1)
          else
            BlobStream.ReadLoop backend length fuel (result ++ part)
              { s1 with offset := s1.offset + min length (part.length : Int) }
    else (result, s)

/-- `BlobStream.Read`: when `length` is omitted it defaults to
`self._length - self._offset`; a length exceeding
`Server.max_unbound_read_size` raises `OversizedRead` before any backend
access; otherwise the chunk-copy loop runs and the accumulated bytes are
truncated to `length` (`result.getvalue()[:length]`, which is empty for
a negative `length`, as in Python). -/
def BlobStream.Read (s : BlobStream) (backend : Backend)
    (lengthArg : Option Int) : (Except PyError Bytes) × BlobStream :=
  let length : Int :=
    match lengthArg with
    | none => (s.length : Int) - s.offset
    | some l => l
  if length > (s.max_unbound_read : Int) then
    (.error (.oversizedRead length s.max_unbound_read), s)
  else
    let r := BlobStream.ReadLoop backend length (length.toNat + 1) [] s
    (.ok (r.1.take length.toNat), r.2)

/-- `BlobStream.Tell`: returns the current cursor. -/
def BlobStream.Tell (s : BlobStream) : Int := s.offset

/-- `os.SEEK_SET`. -/
def SEEK_SET : Nat := 0

/-- `os.SEEK_CUR`. -/
def SEEK_CUR : Nat := 1

/-- `os.SEEK_END`. -/
def SEEK_END : Nat := 2

/-- `BlobStream.Seek`: sets the cursor according to `whence`, with no
bound check whatsoever on the resulting cursor; an unrecognized `whence`
raises `ValueError`. -/
def BlobStream.Seek (s : BlobStream) (offset : Int) (whence : Nat) :
    Except PyError BlobStream :=
  if whence = SEEK_SET then .ok { s with offset := offset }
  else if whence = SEEK_CUR then .ok { s with offset := s.offset + offset }
  else if whence = SEEK_END then .ok { s with offset := (s.length : Int) + offset }
  else .error .valueError

/-- The `size` property: `self._length`. -/
def BlobStream.size (s : BlobStream) : Nat := s.length

/-- `_BLOBS_READ_BATCH_SIZE = 200`. -/
def BLOBS_READ_BATCH_SIZE : Nat := 200

/-- `collection.Batch(items, size)` from `grr_response_core`: accumulate
items, emitting a batch whenever it reaches `size` elements, plus a
final partial batch. -/
def batchGo (size : Nat) (batch : List α) : List α → List (List α)
  | [] => if batch.isEmpty then [] else [batch]
  | item :: rest =>
      let grown := batch ++ [item]
      if grown.length = size then grown :: batchGo size [] rest
      else batchGo size grown rest

/-- `collection.Batch(items, size)`. -/
def Batch (items : List α) (size : Nat) : List (List α) :=
  batchGo size [] items

/-- The accumulator state of `AddFileWithUnknownHash`: the reference
list built so far, the running `offset`, and the bytes fed to the
running `sha256` digest so far. -/
structure ComposeState where
  blob_refs : List BlobReference
  offset : Nat
  fed : Bytes
deriving Repr, DecidableEq

/-- One iteration of the inner `for blob_id in blob_ids_batch` loop of
`AddFileWithUnknownHash`: look up `blob_data = data[blob_id]` (the value
the backend returned for that id), append a `BlobReference` at the
running offset, advance the offset and feed the bytes to the digest. -/
def composeStep (backend : Backend) (st : ComposeState) (blob_id : Nat) :
    ComposeState :=
  let blob_data := (backend blob_id).getD []
  { blob_refs := st.blob_refs ++ [⟨st.offset, blob_data.length, blob_id⟩]
    offset := st.offset + blob_data.length
    fed := st.fed ++ blob_data }

/-- One batch of `AddFileWithUnknownHash`: fetch the unique ids of the
batch in one `ReadBlobs` call and raise `BlobNotFound` if any value is
`None` (checking every value of the returned dict is the same test as
checking every id of the batch, since the dict is keyed by the batch's
unique ids); otherwise process the batch ids in their original,
non-deduplicated order. -/
def processBatch (backend : Backend) (st : ComposeState)
    (batch : List Nat) : Except PyError ComposeState :=
  match batch.find? (fun k => (backend k).isNone) with
  | some k => .error (.blobNotFound k)
  | none => .ok (batch.foldl (composeStep backend) st)

/-- `AddFileWithUnknownHash(blob_ids)`: processes the ids in batches of
`_BLOBS_READ_BATCH_SIZE`, then computes
`hash_id = SHA256HashID.FromBytes(sha256.digest())` (modelled as `H`
applied to the bytes fed to the digest) and performs the single write
`REL_DB.WriteHashBlobReferences({hash_id: blob_refs})`.  Returns the
result together with the metadata mapping after the call; a raised
exception propagates before the write, leaving the mapping unchanged. -/
def AddFileWithUnknownHash (H : Bytes → Bytes) (backend : Backend)
    (meta : MetaDb) (blob_ids : List Nat) :
    (Except PyError Bytes) × MetaDb :=
  match (Batch blob_ids BLOBS_READ_BATCH_SIZE).foldlM
      (processBatch backend) (⟨[], 0, []⟩ : ComposeState) with
  | .error e => (.error e, meta)
  | .ok st =>
      let hash_id := H st.fed
      (.ok hash_id,
       fun h => if h = hash_id then some st.blob_refs else meta h)

/-- `OpenFile(client_path, max_timestamp)`: `pathBinding` models the
result of `ReadLatestPathInfosWithHashBlobReferences` for the requested
path — `none` when the file was never collected (at or before the
timestamp), otherwise the resolved hash bytes.  `meta` models
`REL_DB.ReadHashBlobReferences`.  On success the function returns
`BlobStream(blob_references, hash_id)`. -/
def OpenFile (pathBinding : Option Bytes) (meta : MetaDb)
    (max_unbound_read : Nat) : Except PyError BlobStream :=
  match pathBinding with
  | none => .error .fileHasNoContent
  | some hash_id =>
      match meta hash_id with
      | none => .error .missingBlobReferences
      | some blob_references =>
          BlobStream.init blob_references hash_id max_unbound_read

/-! ### Harness: contiguous reference lists generated from chunk lists

A contiguous, offset-sorted reference list starting at offset `0` is
exactly the image of `buildRefs 0` on a list of `(blob id, bytes)`
pairs; `chunksContent` is the logical concatenation of the file's
bytes. -/

/-- Build the contiguous reference list for the given chunks, starting
at `off`. -/
def buildRefs (off : Nat) : List (Nat × Bytes) → List BlobReference
  | [] => []
  | (i, b) :: rest => ⟨off, b.length, i⟩ :: buildRefs (off + b.length) rest

/-- The logical concatenation of the chunks' bytes. -/
def chunksContent (chunks : List (Nat × Bytes)) : Bytes :=
  (chunks.map Prod.snd).flatten

/-- The blob backend holds each chunk's bytes under its id. -/
def backendAgrees (backend : Backend) (chunks : List (Nat × Bytes)) : Prop :=
  ∀ p ∈ chunks, backend p.1 = some p.2

/-- The single-chunk cache is coherent: whenever a reference is cached,
the cached chunk is what the backend returns for it.  Holds for a fresh
stream (`current_ref = none`) and is preserved by `GetChunk`. -/
def cacheOK (backend : Backend) (s : BlobStream) : Prop :=
  ∀ r, s.current_ref = some r → s.current_chunk = backend r.blob_id

/-! ### Concrete instances used by witnesses and counterexamples -/

/-- Backend for the two-chunk witness streams: blob `0` is `[1, 2]`,
blob `1` is `[3]`. -/
def wBackend : Backend :=
  fun i => if i = 0 then some [1, 2] else if i = 1 then some [3] else none

/-- The chunk list underlying `wBackend`. -/
def wChunks : List (Nat × Bytes) := [(0, [1, 2]), (1, [3])]

/-- Backend for the cursor-overshoot evaluation: blob `0` has 3 bytes,
blob `1` has 10 bytes. -/
def obBackend : Backend :=
  fun i =>
    if i = 0 then some [10, 11, 12]
    else if i = 1 then some [13, 14, 15, 16, 17, 18, 19, 20, 21, 22] else none

/-- A freshly constructed stream over the 3-byte/10-byte chunk layout
(`_length = 13`, `max_unbound_read = 100`). -/
def obStream : BlobStream :=
  { blob_refs := [⟨0, 3, 0⟩, ⟨3, 10, 1⟩]
    hash_id := []
    max_unbound_read := 100
    offset := 0
    length := 13
    current_ref := none
    current_chunk := none }

/-- A non-contiguous, unsorted reference list (gap between offsets `1`
and `5`). -/
def badRefs : List BlobReference := [⟨0, 1, 0⟩, ⟨5, 1, 1⟩]

/-- Backend for `AddFileWithUnknownHash` witnesses: blob `1` is
`[10, 11]`, blob `2` is `[12]`; blob `3` is missing. -/
def aBackend : Backend :=
  fun i => if i = 1 then some [10, 11] else if i = 2 then some [12] else none

/-- An empty metadata mapping. -/
def emptyMeta : MetaDb := fun _ => none

/-- A metadata mapping holding one single-reference list under hash
`[7]`. -/
def wMeta : MetaDb :=
  fun h => if h = [7] then some [⟨0, 1, 3⟩] else none

/-- A freshly constructed stream over `wChunks` (total size `3`,
`max_unbound_read = 10`). -/
def wStream : BlobStream :=
  { blob_refs := buildRefs 0 wChunks
    hash_id := []
    max_unbound_read := 10
    offset := 0
    length := 3
    current_ref := none
    current_chunk := none }

/-- The same stream with a ceiling large enough for an over-length
read (`max_unbound_read = 200`). -/
def wStreamBig : BlobStream :=
  { blob_refs := buildRefs 0 wChunks
    hash_id := []
    max_unbound_read := 200
    offset := 0
    length := 3
    current_ref := none
    current_chunk := none }

/-- The overshoot stream with a ceiling (`5`) smaller than the file
remainder (`13`). -/
def obStreamSmall : BlobStream := { obStream with max_unbound_read := 5 }

end FileStore

namespace FileStore

/-! ### Lemmas about `Batch` and the hash-composing writer -/

/-- Flattening the batches produced by `batchGo` recovers the pending
batch followed by the remaining items. -/
theorem batchGo_flatten (size : Nat) :
    ∀ (l cur : List α), (batchGo size cur l).flatten = cur ++ l := by
  intro l
  induction l with
  | nil =>
      intro cur
      by_cases h : cur.isEmpty
      · simp [batchGo, h, List.isEmpty_iff.mp h]
      · simp [batchGo, h]
  | cons x rest ih =>
      intro cur
      simp only [batchGo]
      split
      · simp [ih]
      · simpa using ih (cur ++ [x])

/-- Flattening the batches of `Batch` recovers the original items. -/
theorem Batch_flatten (l : List α) (size : Nat) : (Batch l size).flatten = l := by
  simpa using batchGo_flatten size l []

/-- The bytes fed to the running digest by the inner loop are exactly
the concatenation of the processed blobs' bytes, in list order. -/
theorem composeFold_fed (backend : Backend) :
    ∀ (l : List Nat) (st : ComposeState),
      (l.foldl (composeStep backend) st).fed =
        st.fed ++ (l.map (fun i => (backend i).getD [])).flatten := by
  intro l
  induction l with
  | nil => intro st; simp
  | cons i t ih =>
      intro st
      simp only [List.foldl_cons, List.map_cons, List.flatten_cons, ih]
      simp [composeStep]

/-- When every id of a batch is present in the backend, `processBatch`
succeeds with the elementwise fold over the batch. -/
theorem processBatch_ok (backend : Backend) (st : ComposeState)
    (b : List Nat) (h : ∀ i ∈ b, (backend i).isSome) :
    processBatch backend st b = .ok (b.foldl (composeStep backend) st) := by
  unfold processBatch
  rw [List.find?_eq_none.mpr]
  intro x hx
  have hs := h x hx
  cases hbx : backend x with
  | none => rw [hbx] at hs; simp at hs
  | some v => simp [hbx]

/-- When every id of every batch is present, the batch-by-batch fold of
`AddFileWithUnknownHash` equals the elementwise fold over the flattened
id sequence. -/
theorem foldlM_processBatch_ok (backend : Backend) :
    ∀ (bs : List (List Nat)) (st : ComposeState),
      (∀ i ∈ bs.flatten, (backend i).isSome) →
      bs.foldlM (processBatch backend) st =
        .ok (bs.flatten.foldl (composeStep backend) st) := by
  intro bs
  induction bs with
  | nil => intro st h; rfl
  | cons b rest ih =>
      intro st h
      have hb : ∀ i ∈ b, (backend i).isSome := by
        intro i hi; exact h i (by simp [hi])
      have hrest : ∀ i ∈ rest.flatten, (backend i).isSome := by
        intro i hi; exact h i (by simp [hi])
      rw [List.foldlM_cons, processBatch_ok backend st b hb]
      show rest.foldlM (processBatch backend) (b.foldl (composeStep backend) st) = _
      rw [ih _ hrest, List.flatten_cons, List.foldl_append]

/-- When some id of some batch is missing, the batch-by-batch fold
raises `BlobNotFound`. -/
theorem foldlM_processBatch_err (backend : Backend) :
    ∀ (bs : List (List Nat)) (st : ComposeState),
      (∃ i ∈ bs.flatten, backend i = none) →
      ∃ k, bs.foldlM (processBatch backend) st = .error (.blobNotFound k) := by
  intro bs
  induction bs with
  | nil => intro st h; simp at h
  | cons b rest ih =>
      intro st h
      cases hfind : b.find? (fun k => (backend k).isNone) with
      | some k =>
          refine ⟨k, ?_⟩
          rw [List.foldlM_cons]
          unfold processBatch
          rw [hfind]
          rfl
      | none =>
          have hall := List.find?_eq_none.mp hfind
          have hstep : processBatch backend st b = .ok (b.foldl (composeStep backend) st) := by
            unfold processBatch; rw [hfind]
          rw [List.foldlM_cons, hstep]
          show ∃ k, rest.foldlM (processBatch backend) (b.foldl (composeStep backend) st) = _
          apply ih
          obtain ⟨i, hi, hnone⟩ := h
          rw [List.flatten_cons, List.mem_append] at hi
          rcases hi with hi | hi
          · exact absurd (by simp [hnone]) (hall i hi)
          · exact ⟨i, hi, hnone⟩

/-- Claim C1: for every sequence of chunk ids whose blobs are all
present in the blob backend, `AddFileWithUnknownHash` returns the
SHA-256 digest (the abstract digest function `H`) of the concatenation
of the chunks' bytes taken in the original sequence order.  The result
is therefore a pure function of that concatenated byte string: the
batching into groups of `_BLOBS_READ_BATCH_SIZE = 200`, the
deduplicated fetching within a batch and the backend's dict iteration
order do not appear in the right-hand side, and two calls over the same
sequence with the same backend trivially return the same hash since the
embedding is a pure function of `(backend, blob_ids)`. -/
theorem claim_C1 (H : Bytes → Bytes) (backend : Backend) (meta : MetaDb)
    (blob_ids : List Nat) (hpres : ∀ i ∈ blob_ids, (backend i).isSome) :
    (AddFileWithUnknownHash H backend meta blob_ids).1 =
      .ok (H ((blob_ids.map (fun i => (backend i).getD [])).flatten)) := by
  unfold AddFileWithUnknownHash
  rw [foldlM_processBatch_ok backend _ _
    (by rw [Batch_flatten]; exact hpres)]
  simp only [composeFold_fed, Batch_flatten, List.nil_append]

/-- Witness for C1 at a concrete input: ids `[1, 1, 2]` (with a
repeated id) over `aBackend` produce the digest of
`[10, 11] ++ [10, 11] ++ [12]`. -/
theorem claim_C1_witness :
    (∀ i ∈ [1, 1, 2], (aBackend i).isSome) ∧
    (AddFileWithUnknownHash (fun b => b) aBackend emptyMeta [1, 1, 2]).1 =
      .ok ((fun b => b) (([1, 1, 2].map (fun i => (aBackend i).getD [])).flatten)) :=
  ⟨by decide, claim_C1 (fun b => b) aBackend emptyMeta [1, 1, 2] (by decide)⟩

/-- Claim C2: if any chunk id passed to `AddFileWithUnknownHash`
resolves to `None` in the blob backend, the call fails with
`BlobNotFound` and the metadata mapping is returned unchanged — no
partial reference list is persisted, because the single
`WriteHashBlobReferences` call happens only after every batch has been
fetched and hashed. -/
theorem claim_C2 (H : Bytes → Bytes) (backend : Backend) (meta : MetaDb)
    (blob_ids : List Nat) (hmiss : ∃ i ∈ blob_ids, backend i = none) :
    ∃ k, AddFileWithUnknownHash H backend meta blob_ids =
      (.error (.blobNotFound k), meta) := by
  obtain ⟨k, hk⟩ := foldlM_processBatch_err backend
    (Batch blob_ids BLOBS_READ_BATCH_SIZE) ⟨[], 0, []⟩
    (by rw [Batch_flatten]; exact hmiss)
  refine ⟨k, ?_⟩
  unfold AddFileWithUnknownHash
  rw [hk]

/-- Witness for C2 at a concrete input: id `3` is missing from
`aBackend`, so composing `[1, 3]` fails and leaves the metadata
mapping untouched. -/
theorem claim_C2_witness :
    (∃ i ∈ [1, 3], aBackend i = none) ∧
    (∃ k, AddFileWithUnknownHash (fun b => b) aBackend emptyMeta [1, 3] =
      (.error (.blobNotFound k), emptyMeta)) :=
  ⟨by decide, claim_C2 (fun b => b) aBackend emptyMeta [1, 3] (by decide)⟩

end FileStore

namespace FileStore

/-! ### Lemmas about the chunk locator and `BlobStream` reads -/

/-- `chunksContent` on a cons. -/
theorem chunksContent_cons (i : Nat) (b : Bytes) (rest : List (Nat × Bytes)) :
    chunksContent ((i, b) :: rest) = b ++ chunksContent rest := by
  simp [chunksContent]

/-- The linear scan of `_GetChunk` over a contiguous reference list
finds the reference covering a position inside the file, and that
reference's chunk bytes are the corresponding slice of the logical
concatenation. -/
theorem find_cover_aux (backend : Backend) :
    ∀ (chunks : List (Nat × Bytes)), backendAgrees backend chunks →
    ∀ (off j : Nat), j < (chunksContent chunks).length →
    ∃ r b, (buildRefs off chunks).find? (coversOffset ((off + j : Nat) : Int)) = some r ∧
      backend r.blob_id = some b ∧ r.size = b.length ∧
      off ≤ r.offset ∧ r.offset ≤ off + j ∧ off + j < r.offset + r.size ∧
      r.offset + r.size ≤ off + (chunksContent chunks).length ∧
      b.drop (off + j - r.offset) =
        ((chunksContent chunks).drop j).take (r.offset + r.size - (off + j)) := by
  intro chunks
  induction chunks with
  | nil => intro _ off j hj; simp [chunksContent] at hj
  | cons p rest ih =>
      obtain ⟨i, b0⟩ := p
      intro hag off j hj
      rw [chunksContent_cons] at hj ⊢
      rw [List.length_append] at hj
      simp only [buildRefs]
      by_cases hcase : j < b0.length
      · have hcov : coversOffset ((off + j : Nat) : Int) ⟨off, b0.length, i⟩ = true := by
          simp only [coversOffset, decide_eq_true_eq]
          constructor <;> [skip; skip] <;> push_cast <;> omega
        rw [List.find?_cons_of_pos _ hcov]
        refine ⟨⟨off, b0.length, i⟩, b0, rfl, hag (i, b0) (by simp), rfl,
          le_refl _, by dsimp only; omega, by dsimp only; omega,
          by dsimp only; rw [List.length_append]; omega, ?_⟩
        dsimp only
        have h1 : off + j - off = j := by omega
        have h2 : off + b0.length - (off + j) = b0.length - j := by omega
        rw [h1, h2, List.drop_append_of_le_length (le_of_lt hcase)]
        rw [show b0.length - j = (b0.drop j).length by simp]
        exact (List.take_left ..).symm
      · have hcov : ¬ (coversOffset ((off + j : Nat) : Int) ⟨off, b0.length, i⟩ = true) := by
          simp only [coversOffset, decide_eq_true_eq]
          push_cast
          omega
        rw [List.find?_cons_of_neg _ hcov]
        have hj2 : j - b0.length < (chunksContent rest).length := by omega
        have hagr : backendAgrees backend rest := fun q hq => hag q (by simp [hq])
        obtain ⟨r, b, hfind, hb, hsz, hge, hle1, hlt, hend, hslice⟩ :=
          ih hagr (off + b0.length) (j - b0.length) hj2
        have hnat : off + j = (off + b0.length) + (j - b0.length) := by omega
        refine ⟨r, b, ?_, hb, hsz, by omega, by omega, by omega,
          by rw [List.length_append]; omega, ?_⟩
        · rw [hnat]; exact hfind
        · have hdrop : (b0 ++ chunksContent rest).drop j =
              (chunksContent rest).drop (j - b0.length) := by
            rw [show j = b0.length + (j - b0.length) by omega]
            simp
          rw [hdrop,
            show off + j - r.offset = (off + b0.length) + (j - b0.length) - r.offset by omega,
            show r.offset + r.size - (off + j) =
              r.offset + r.size - ((off + b0.length) + (j - b0.length)) by omega]
          exact hslice

/-- The scan of `_GetChunk` finds nothing at or beyond the end of the
file. -/
theorem find_cover_none :
    ∀ (chunks : List (Nat × Bytes)) (off : Nat) (c : Int),
      (off : Int) + ((chunksContent chunks).length : Int) ≤ c →
      (buildRefs off chunks).find? (coversOffset c) = none := by
  intro chunks
  induction chunks with
  | nil => intro off c _; rfl
  | cons p rest ih =>
      obtain ⟨i, b0⟩ := p
      intro off c h
      rw [chunksContent_cons, List.length_append] at h
      simp only [buildRefs]
      have hcov : ¬ (coversOffset c ⟨off, b0.length, i⟩ = true) := by
        simp only [coversOffset, decide_eq_true_eq]
        push_cast at h ⊢
        omega
      rw [List.find?_cons_of_neg _ hcov]
      exact ih (off + b0.length) c (by push_cast at h ⊢; omega)

/-- `_GetChunk` at or beyond the end of the file returns `(None, None)`
and does not touch the state. -/
theorem GetChunk_none (backend : Backend) (chunks : List (Nat × Bytes))
    (s : BlobStream) (hrefs : s.blob_refs = buildRefs 0 chunks)
    (h : ((chunksContent chunks).length : Int) ≤ s.offset) :
    s.GetChunk backend = ((none, none), s) := by
  unfold BlobStream.GetChunk
  rw [hrefs, find_cover_none chunks 0 s.offset (by push_cast; omega)]

/-- `_GetChunk` inside the file returns the covering reference together
with its chunk bytes (from the cache on a hit, from the backend on a
miss), preserves the reference list, the cursor and the configured
limits, and keeps the cache coherent. -/
theorem GetChunk_found (backend : Backend) (chunks : List (Nat × Bytes))
    (hag : backendAgrees backend chunks) (s : BlobStream)
    (hrefs : s.blob_refs = buildRefs 0 chunks) (hcache : cacheOK backend s)
    (hoff : 0 ≤ s.offset)
    (hlt : s.offset < ((chunksContent chunks).length : Int)) :
    ∃ r b s1, s.GetChunk backend = ((some b, some r), s1) ∧
      s1.blob_refs = s.blob_refs ∧ s1.offset = s.offset ∧
      s1.max_unbound_read = s.max_unbound_read ∧ s1.length = s.length ∧
      cacheOK backend s1 ∧
      backend r.blob_id = some b ∧ r.size = b.length ∧
      (r.offset : Int) ≤ s.offset ∧ s.offset < (r.offset : Int) + (r.size : Int) ∧
      r.offset + r.size ≤ (chunksContent chunks).length ∧
      b.drop (s.offset.toNat - r.offset) =
        ((chunksContent chunks).drop s.offset.toNat).take
          (r.offset + r.size - s.offset.toNat) := by
  have hj : (s.offset.toNat : Int) = s.offset := Int.toNat_of_nonneg hoff
  have hjlt : s.offset.toNat < (chunksContent chunks).length := by omega
  obtain ⟨r, b, hfind, hb, hsz, _, hle, hltj, hend, hslice⟩ :=
    find_cover_aux backend chunks hag 0 s.offset.toNat hjlt
  have hfind2 : s.blob_refs.find? (coversOffset s.offset) = some r := by
    rw [hrefs, show s.offset = ((0 + s.offset.toNat : Nat) : Int) by push_cast; omega]
    exact hfind
  by_cases hcur : s.current_ref = some r
  · have hgc : s.GetChunk backend = ((s.current_chunk, some r), s) := by
      unfold BlobStream.GetChunk
      rw [hfind2]
      dsimp only
      rw [if_pos hcur]
    refine ⟨r, b, s, by rw [hgc, hcache r hcur, hb], rfl, rfl, rfl, rfl, hcache,
      hb, hsz, by omega, by omega, by simpa using hend, ?_⟩
    simpa using hslice
  · have hgc : s.GetChunk backend = ((backend r.blob_id, some r),
        { s with current_ref := some r, current_chunk := backend r.blob_id }) := by
      unfold BlobStream.GetChunk
      rw [hfind2]
      dsimp only
      rw [if_neg hcur]
    refine ⟨r, b,
      { s with current_ref := some r, current_chunk := backend r.blob_id },
      by rw [hgc, hb], rfl, rfl, rfl, rfl, ?_,
      hb, hsz, by omega, by omega, by simpa using hend, ?_⟩
    · intro r2 h2
      have hr : r = r2 := by simpa using h2
      subst hr
      rfl
    · simpa using hslice

end FileStore

namespace FileStore

/-- Behaviour of the `while` loop of `Read` over a contiguous reference
list: it appends to the accumulator a prefix of the remaining logical
bytes, long enough to satisfy the requested length unless the file is
exhausted first.  (`m = 0` when the accumulator already satisfies the
request, so the loop body never runs.) -/
theorem ReadLoop_spec (backend : Backend) (chunks : List (Nat × Bytes))
    (hag : backendAgrees backend chunks) :
    ∀ (fuel : Nat) (l : Int) (acc : Bytes) (s : BlobStream),
      s.blob_refs = buildRefs 0 chunks →
      cacheOK backend s →
      0 ≤ s.offset →
      l.toNat + 1 ≤ fuel + acc.length →
      ∃ m, (BlobStream.ReadLoop backend l fuel acc s).1 =
            acc ++ ((chunksContent chunks).drop s.offset.toNat).take m ∧
        (l ≤ (acc.length : Int) → m = 0) ∧
        (l ≤ ((acc.length : Int) + (m : Int)) ∨
          ((chunksContent chunks).length : Int) ≤ s.offset + (m : Int)) := by
  intro fuel
  induction fuel with
  | zero =>
      intro l acc s _ _ _ hfuel
      exact ⟨0, by simp [BlobStream.ReadLoop], fun _ => rfl, Or.inl (by omega)⟩
  | succ fuel ih =>
      intro l acc s hrefs hcache hoff hfuel
      by_cases hguard : (acc.length : Int) < l
      case neg =>
          refine ⟨0, ?_, fun _ => rfl, Or.inl (by omega)⟩
          simp [BlobStream.ReadLoop, if_neg hguard]
      case pos =>
      by_cases hpast : ((chunksContent chunks).length : Int) ≤ s.offset
      case pos =>
          have hg := GetChunk_none backend chunks s hrefs hpast
          refine ⟨0, ?_, fun _ => rfl, Or.inr (by omega)⟩
          simp only [BlobStream.ReadLoop, if_pos hguard, hg]
          simp
      case neg =>
          push_neg at hpast
          obtain ⟨r, b, s1, hgc, hrefs1, hoff1, _, _, hcache1, hb, hsz,
            hge, hltr, hendle, hslice⟩ :=
            GetChunk_found backend chunks hag s hrefs hcache hoff hpast
          have hj : (s.offset.toNat : Int) = s.offset := Int.toNat_of_nonneg hoff
          have hbne : ¬ (b = []) := by
            intro hbe
            rw [hbe] at hsz
            simp at hsz
            omega
          have hple : r.offset ≤ s.offset.toNat := by omega
          have hjlt2 : s.offset.toNat < r.offset + r.size := by omega
          have hpart : pySliceFrom b (s1.offset - (r.offset : Int)) =
              ((chunksContent chunks).drop s.offset.toNat).take
                (r.offset + r.size - s.offset.toNat) := by
            rw [hoff1]
            unfold pySliceFrom
            rw [if_pos (by omega)]
            rw [show (s.offset - (r.offset : Int)).toNat = s.offset.toNat - r.offset by omega]
            exact hslice
          have hpartlen : (pySliceFrom b (s1.offset - (r.offset : Int))).length =
              r.offset + r.size - s.offset.toNat := by
            rw [hpart, List.length_take, List.length_drop]
            omega
          have hpartne : ¬ (pySliceFrom b (s1.offset - (r.offset : Int)) = []) := by
            intro he
            rw [he] at hpartlen
            simp at hpartlen
            omega
          have hstep : (BlobStream.ReadLoop backend l (fuel + 1) acc s).1 =
              (BlobStream.ReadLoop backend l fuel
                (acc ++ pySliceFrom b (s1.offset - (r.offset : Int)))
                { s1 with offset := s1.offset + min l ((pySliceFrom b (s1.offset - (r.offset : Int))).length : Int) }).1 := by
            simp only [BlobStream.ReadLoop]
            rw [if_pos hguard, hgc]
            dsimp only
            rw [if_neg hbne]
            rw [if_neg hpartne]
          obtain ⟨m2, hm1, hm2, hm3⟩ := ih l
            (acc ++ pySliceFrom b (s1.offset - (r.offset : Int)))
            { s1 with offset := s1.offset + min l ((pySliceFrom b (s1.offset - (r.offset : Int))).length : Int) }
            (by simpa using hrefs1.trans hrefs)
            (fun r2 h2 => hcache1 r2 h2)
            (by dsimp only; rw [hpartlen, hoff1]; omega)
            (by simp only [List.length_append]; rw [hpartlen]; omega)
          have hofftn : ({ s1 with offset := s1.offset + min l ((pySliceFrom b (s1.offset - (r.offset : Int))).length : Int) } :
              BlobStream).offset.toNat =
              s.offset.toNat + (min l ((r.offset + r.size - s.offset.toNat : Nat) : Int)).toNat := by
            dsimp only
            rw [hpartlen, hoff1]
            omega
          have hoffint : ({ s1 with offset := s1.offset + min l ((pySliceFrom b (s1.offset - (r.offset : Int))).length : Int) } :
              BlobStream).offset =
              s.offset + min l ((r.offset + r.size - s.offset.toNat : Nat) : Int) := by
            dsimp only
            rw [hpartlen, hoff1]
          rw [hstep, hm1, hofftn]
          rw [hofftn] at hm1
          rw [hoffint] at hm3
          set plen : Nat := r.offset + r.size - s.offset.toNat with hplendef
          have hplenpos : 0 < plen := by omega
          have hlenacc : ((acc ++ pySliceFrom b (s1.offset - (r.offset : Int))).length : Int) =
              (acc.length : Int) + (plen : Int) := by
            simp only [List.length_append]
            rw [hpartlen]
            push_cast
            ring
          by_cases hAB : ((plen : Nat) : Int) ≤ l
          · -- the whole part is consumed; the loop continues
            have hmin : min l ((plen : Nat) : Int) = ((plen : Nat) : Int) := min_eq_right hAB
            have hmintn : (min l ((plen : Nat) : Int)).toNat = plen := by
              rw [hmin]
              omega
            refine ⟨plen + m2, ?_, fun hc => absurd hc (not_le.mpr hguard), ?_⟩
            · rw [hmintn, List.take_add, hpart]
              rw [show ((chunksContent chunks).drop s.offset.toNat).drop plen =
                (chunksContent chunks).drop (s.offset.toNat + plen) by rw [List.drop_drop]]
              rw [List.append_assoc]
            · rcases hm3 with h | h
              · left
                rw [hlenacc] at h
                push_cast
                omega
              · right
                rw [hmin] at h
                push_cast at h ⊢
                omega
          · -- only a prefix of the part is needed; the loop stops next
            push_neg at hAB
            have hm2z : m2 = 0 := hm2 (by rw [hlenacc]; omega)
            refine ⟨plen, ?_, fun hc => absurd hc (not_le.mpr hguard),
              Or.inl (by push_cast; omega)⟩
            rw [hm2z, hpart]
            simp

end FileStore

namespace FileStore

/-- `Read(l)` over a contiguous reference list with a non-negative
cursor and an in-ceiling non-negative explicit length returns exactly
the requested slice of the logical concatenation, truncated at the end
of the file. -/
theorem Read_spec (backend : Backend) (chunks : List (Nat × Bytes))
    (hag : backendAgrees backend chunks) (s : BlobStream)
    (hrefs : s.blob_refs = buildRefs 0 chunks) (hcache : cacheOK backend s)
    (hoff : 0 ≤ s.offset) (l : Int) (hl0 : 0 ≤ l)
    (hlM : l ≤ (s.max_unbound_read : Int)) :
    (s.Read backend (some l)).1 =
      .ok (((chunksContent chunks).drop s.offset.toNat).take l.toNat) := by
  obtain ⟨m, hm1, _, hm3⟩ := ReadLoop_spec backend chunks hag (l.toNat + 1) l [] s
    hrefs hcache hoff (by omega)
  unfold BlobStream.Read
  rw [if_neg (not_lt.mpr hlM)]
  dsimp only
  rw [hm1, List.nil_append]
  congr 1
  rw [List.take_take]
  rcases hm3 with h | h
  · rw [min_eq_left (by simp at h; omega)]
  · rcases le_or_lt l.toNat m with h2 | h2
    · rw [min_eq_left h2]
    · rw [min_eq_right (le_of_lt h2)]
      rw [List.take_of_length_le (by rw [List.length_drop]; omega),
        List.take_of_length_le (by rw [List.length_drop]; omega)]

/-- Inversion for `BlobStream.__init__`: a successful construction comes
from a non-empty reference list and yields the freshly initialized
state. -/
theorem init_ok {refs : List BlobReference} {hash : Bytes} {maxR : Nat}
    {s : BlobStream} (h : BlobStream.init refs hash maxR = .ok s) :
    ∃ last, refs.getLast? = some last ∧
      s = { blob_refs := refs, hash_id := hash, max_unbound_read := maxR,
            offset := 0, length := last.offset + last.size,
            current_ref := none, current_chunk := none } := by
  unfold BlobStream.init at h
  cases hl : refs.getLast? with
  | none => rw [hl] at h; exact absurd h (by simp)
  | some last =>
      rw [hl] at h
      exact ⟨last, rfl, by injection h with h2; exact h2.symm⟩

end FileStore

namespace FileStore

/-- `Seek(o, SEEK_SET)` always succeeds and stores the requested cursor
unchanged. -/
theorem Seek_set (s : BlobStream) (o : Int) :
    s.Seek o SEEK_SET = .ok { s with offset := o } := by
  unfold BlobStream.Seek
  rw [if_pos rfl]

/-- A non-empty list has a last element. -/
theorem exists_getLast? {α : Type} :
    ∀ (l : List α) (x : α), ∃ a, (x :: l).getLast? = some a := by
  intro l
  induction l with
  | nil => intro x; exact ⟨x, rfl⟩
  | cons y t ih =>
      intro x
      obtain ⟨a, ha⟩ := ih y
      exact ⟨a, by rw [List.getLast?_cons_cons]; exact ha⟩

/-- Claim C3: for every `BlobStream` over a contiguous, offset-sorted
reference list (the image of `buildRefs 0` on a chunk list, with the
backend holding each chunk's bytes) of total size `N`, and every
`k ≤ N` with `N - k` within the configured read ceiling,
`Seek(k, SEEK_SET)` followed by `Read(N - k)` returns exactly the bytes
at positions `[k, N)` of the logical concatenation of the chunks'
bytes. -/
theorem claim_C3 (backend : Backend) (chunks : List (Nat × Bytes))
    (hag : backendAgrees backend chunks) (hash : Bytes) (maxR : Nat)
    (s0 : BlobStream)
    (hinit : BlobStream.init (buildRefs 0 chunks) hash maxR = .ok s0)
    (k : Nat) (hk : k ≤ (chunksContent chunks).length)
    (hceil : ((chunksContent chunks).length : Int) - k ≤ (maxR : Int))
    (s1 : BlobStream) (hseek : s0.Seek k SEEK_SET = .ok s1) :
    (s1.Read backend (some (((chunksContent chunks).length : Int) - k))).1 =
      .ok ((chunksContent chunks).drop k) := by
  obtain ⟨last, hlast, hs0⟩ := init_ok hinit
  rw [Seek_set s0 (k : Int)] at hseek
  injection hseek with hseq
  have hf1 : s1.blob_refs = buildRefs 0 chunks := by rw [← hseq, hs0]
  have hf2 : s1.offset = (k : Int) := by rw [← hseq]
  have hf3 : s1.max_unbound_read = maxR := by rw [← hseq, hs0]
  have hf4 : cacheOK backend s1 := by
    intro r2 h2
    rw [← hseq, hs0] at h2
    simp at h2
  have hres := Read_spec backend chunks hag s1 hf1 hf4
    (by rw [hf2]; exact Int.natCast_nonneg k)
    (((chunksContent chunks).length : Int) - k)
    (by omega) (by rw [hf3]; exact hceil)
  rw [hres, hf2]
  congr 1
  rw [Int.toNat_natCast,
    show (((chunksContent chunks).length : Int) - k).toNat =
      (chunksContent chunks).length - k by omega]
  exact List.take_of_length_le (by rw [List.length_drop])

/-- Witness for C3 at a concrete input: the two-chunk file
`[1, 2] ++ [3]`, seek to `1`, read `N - 1 = 2` bytes, obtaining
`[2, 3]`. -/
theorem claim_C3_witness :
    (BlobStream.init (buildRefs 0 wChunks) [] 10 = .ok wStream) ∧
    (wStream.Seek 1 SEEK_SET = .ok { wStream with offset := 1 }) ∧
    ((({ wStream with offset := 1 }).Read wBackend
        (some (((chunksContent wChunks).length : Int) - 1))).1 =
      .ok ((chunksContent wChunks).drop 1)) :=
  ⟨rfl, rfl, claim_C3 wBackend wChunks (by unfold backendAgrees; decide) [] 10 wStream rfl
    1 (by decide) (by decide) { wStream with offset := 1 } rfl⟩

/-- Claim C6: with `M = max_unbound_read_size`, `Read(M+1)` fails with
`OversizedRead` leaving the stream untouched and without consulting the
backend (the call's result is the same for every backend), `Read(M)`
succeeds, and an omitted length defaults to `size - cursor`, so it also
fails with `OversizedRead` whenever that remainder exceeds `M`. -/
theorem claim_C6 (backend : Backend) (s : BlobStream) :
    ((s.Read backend (some ((s.max_unbound_read : Int) + 1))).1 =
      .error (.oversizedRead ((s.max_unbound_read : Int) + 1) s.max_unbound_read)) ∧
    ((s.Read backend (some ((s.max_unbound_read : Int) + 1))).2 = s) ∧
    (∀ backend2, s.Read backend (some ((s.max_unbound_read : Int) + 1)) =
      s.Read backend2 (some ((s.max_unbound_read : Int) + 1))) ∧
    ((s.Read backend (some (s.max_unbound_read : Int))).1.isOk = true) ∧
    (((s.max_unbound_read : Int) < (s.length : Int) - s.offset) →
      (s.Read backend none).1 =
        .error (.oversizedRead ((s.length : Int) - s.offset) s.max_unbound_read)) := by
  have hcond : ((s.max_unbound_read : Int) + 1 > (s.max_unbound_read : Int)) := by omega
  refine ⟨?_, ?_, ?_, ?_, ?_⟩
  · unfold BlobStream.Read
    rw [if_pos hcond]
  · unfold BlobStream.Read
    rw [if_pos hcond]
  · intro backend2
    unfold BlobStream.Read
    rw [if_pos hcond, if_pos hcond]
  · unfold BlobStream.Read
    dsimp only
    rw [if_neg (by omega)]
    rfl
  · intro hlt
    unfold BlobStream.Read
    dsimp only
    rw [if_pos hlt]

/-- Witness for C6 at a concrete input: the 13-byte stream with ceiling
`5` and an omitted read length fails with `OversizedRead 13 5`. -/
theorem claim_C6_witness :
    ((obStreamSmall.max_unbound_read : Int) <
      (obStreamSmall.length : Int) - obStreamSmall.offset) ∧
    ((obStreamSmall.Read obBackend none).1 =
      .error (.oversizedRead ((obStreamSmall.length : Int) - obStreamSmall.offset)
        obStreamSmall.max_unbound_read)) :=
  ⟨by decide, (claim_C6 obBackend obStreamSmall).2.2.2.2 (by decide)⟩

/-- Claim C7: reading past the end of the stream truncates rather than
failing — from cursor `0`, `Read(N + 100)` (with `N + 100` within the
ceiling) returns exactly the `N` bytes of the file. -/
theorem claim_C7 (backend : Backend) (chunks : List (Nat × Bytes))
    (hag : backendAgrees backend chunks) (hash : Bytes) (maxR : Nat)
    (s0 : BlobStream)
    (hinit : BlobStream.init (buildRefs 0 chunks) hash maxR = .ok s0)
    (hceil : ((chunksContent chunks).length : Int) + 100 ≤ (maxR : Int)) :
    (s0.Read backend (some (((chunksContent chunks).length : Int) + 100))).1 =
      .ok (chunksContent chunks) := by
  obtain ⟨last, hlast, hs0⟩ := init_ok hinit
  have hf1 : s0.blob_refs = buildRefs 0 chunks := by rw [hs0]
  have hf2 : s0.offset = 0 := by rw [hs0]
  have hf3 : s0.max_unbound_read = maxR := by rw [hs0]
  have hf4 : cacheOK backend s0 := by
    intro r2 h2
    rw [hs0] at h2
    simp at h2
  have hres := Read_spec backend chunks hag s0 hf1 hf4 (by rw [hf2])
    (((chunksContent chunks).length : Int) + 100)
    (by omega) (by rw [hf3]; exact hceil)
  rw [hres, hf2]
  congr 1
  rw [show ((0 : Int)).toNat = 0 by rfl, List.drop_zero]
  exact List.take_of_length_le (by omega)

/-- Witness for C7 at a concrete input: the 3-byte file read with
length `3 + 100` returns all `3` bytes. -/
theorem claim_C7_witness :
    (BlobStream.init (buildRefs 0 wChunks) [] 200 = .ok wStreamBig) ∧
    ((wStreamBig.Read wBackend
        (some (((chunksContent wChunks).length : Int) + 100))).1 =
      .ok (chunksContent wChunks)) :=
  ⟨rfl, claim_C7 wBackend wChunks (by unfold backendAgrees; decide) [] 200 wStreamBig rfl (by decide)⟩

/-- Counterexample to claim C8 as stated: `Seek(-1, SEEK_SET)` on a
concrete stream does not fail with any error — it succeeds and stores
the negative cursor (the code has no `InvalidSeek` check at all). -/
theorem claim_C8_counterexample :
    obStream.Seek (-1) SEEK_SET = .ok { obStream with offset := -1 } := rfl

/-- Claim C8 (amended): `Seek` performs no bound check on the resulting
cursor — any `Seek(o, SEEK_SET)`, including a negative `o`, succeeds
and stores `o` — while a `Seek` placing the cursor at or beyond
`total_size` is legal and leaves subsequent in-ceiling reads returning
empty bytes. -/
theorem claim_C8 (backend : Backend) (chunks : List (Nat × Bytes))
    (hag : backendAgrees backend chunks) (hash : Bytes) (maxR : Nat)
    (s0 : BlobStream)
    (hinit : BlobStream.init (buildRefs 0 chunks) hash maxR = .ok s0)
    (c : Int) (hc : ((chunksContent chunks).length : Int) ≤ c)
    (l : Int) (hl0 : 0 ≤ l) (hlM : l ≤ (maxR : Int)) :
    (∀ (s : BlobStream) (o : Int), s.Seek o SEEK_SET = .ok { s with offset := o }) ∧
    (∃ s1, s0.Seek c SEEK_SET = .ok s1 ∧ (s1.Read backend (some l)).1 = .ok []) := by
  obtain ⟨last, hlast, hs0⟩ := init_ok hinit
  refine ⟨fun s o => Seek_set s o, { s0 with offset := c }, Seek_set s0 c, ?_⟩
  have hf1 : ({ s0 with offset := c } : BlobStream).blob_refs = buildRefs 0 chunks := by
    rw [hs0]
  have hf3 : ({ s0 with offset := c } : BlobStream).max_unbound_read = maxR := by
    rw [hs0]
  have hf4 : cacheOK backend { s0 with offset := c } := by
    intro r2 h2
    rw [hs0] at h2
    simp at h2
  have hres := Read_spec backend chunks hag { s0 with offset := c } hf1 hf4
    (by dsimp only; omega) l hl0 (by rw [hf3]; exact hlM)
  rw [hres]
  congr 1
  rw [show ({ s0 with offset := c } : BlobStream).offset = c by rfl]
  rw [List.drop_eq_nil_of_le (by omega), List.take_nil]

/-- Witness for C8 at a concrete input: seeking the 3-byte file to
cursor `5` and reading `2` bytes yields the empty byte string. -/
theorem claim_C8_witness :
    (((chunksContent wChunks).length : Int) ≤ 5) ∧
    ((∀ (s : BlobStream) (o : Int), s.Seek o SEEK_SET = .ok { s with offset := o }) ∧
      (∃ s1, wStream.Seek 5 SEEK_SET = .ok s1 ∧
        (s1.Read wBackend (some 2)).1 = .ok [])) :=
  ⟨by decide, claim_C8 wBackend wChunks (by unfold backendAgrees; decide) [] 10 wStream rfl
    5 (by decide) 2 (by decide) (by decide)⟩

end FileStore

namespace FileStore

/-- Claim C4 (evaluation at the failing input): over chunks of sizes
`3` and `10`, `Read(5)` from cursor `0` returns exactly the `5`
requested bytes but leaves the cursor at `8`, not `5` — the loop
advances the offset by `min(length, len(part))` instead of by the bytes
actually consumed, so a read that crosses a chunk boundary overshoots
and a subsequent sequential read skips bytes `5..7`. -/
theorem claim_C4_eval :
    ((obStream.Read obBackend (some 5)).1 = .ok [10, 11, 12, 13, 14]) ∧
    ((obStream.Read obBackend (some 5)).2.Tell = 8) :=
  ⟨rfl, rfl⟩

/-- Counterexample to claim C5 as stated: the non-contiguous, unsorted
reference list `badRefs` (a gap between offsets `1` and `5`) does not
fail construction — `BlobStream.__init__` performs no validation and
happily returns a reader. -/
theorem claim_C5_counterexample :
    (BlobStream.init badRefs [] 10).isOk = true := rfl

/-- Claim C5 (amended): `BlobStream` construction performs no
validation of the reference list — every non-empty list, sorted or not,
contiguous or not, constructs a reader; only the empty list fails, and
with an `IndexError` from `self._blob_refs[-1]`, not with any
`InvalidReferenceList` error (no such error exists in the code). -/
theorem claim_C5_amended (refs : List BlobReference) (hash : Bytes)
    (maxR : Nat) :
    (refs = [] → BlobStream.init refs hash maxR = .error .indexError) ∧
    (refs ≠ [] → ∃ s, BlobStream.init refs hash maxR = .ok s ∧ s.blob_refs = refs) := by
  constructor
  · intro h
    subst h
    rfl
  · intro h
    match refs, h with
    | x :: t, _ =>
        obtain ⟨last, hl⟩ := exists_getLast? t x
        exact ⟨_, by unfold BlobStream.init; rw [hl], rfl⟩

/-- Witness for the amended C5 at a concrete input: the malformed list
`badRefs` is accepted. -/
theorem claim_C5_witness :
    badRefs ≠ [] ∧
    ∃ s, BlobStream.init badRefs [] 10 = .ok s ∧ s.blob_refs = badRefs :=
  ⟨by decide, (claim_C5_amended badRefs [] 10).2 (by decide)⟩

/-- Counterexample to claim C9 as stated: when path resolution succeeds
and the metadata backend holds an *empty* reference list for the hash,
`OpenFile` neither raises one of the two documented errors nor returns
a `BlobStream` — `BlobStream.__init__` raises `IndexError` on the empty
list.  (Such a state is reachable: `AddFileWithUnknownHash([])`
persists an empty reference list.) -/
theorem claim_C9_counterexample :
    OpenFile (some [7]) (fun _ => some []) 5 = .error .indexError := rfl

/-- Claim C9 (amended): `OpenFile` fails with `FileHasNoContent`
exactly when path resolution yields no binding, fails with
`MissingBlobReferences` when the resolved hash has no reference list in
the metadata backend, and otherwise — provided the stored reference
list is non-empty — returns a `BlobStream` over that hash's reference
list; when the stored list is empty, construction raises `IndexError`
instead of returning a reader. -/
theorem claim_C9_amended (binding : Option Bytes) (meta : MetaDb)
    (maxR : Nat) :
    (binding = none → OpenFile binding meta maxR = .error .fileHasNoContent) ∧
    (OpenFile binding meta maxR = .error .fileHasNoContent → binding = none) ∧
    (∀ h, binding = some h → meta h = none →
      OpenFile binding meta maxR = .error .missingBlobReferences) ∧
    (∀ h refs, binding = some h → meta h = some refs → refs ≠ [] →
      ∃ s, OpenFile binding meta maxR = .ok s ∧
        s.blob_refs = refs ∧ s.hash_id = h) ∧
    (∀ h, binding = some h → meta h = some [] →
      OpenFile binding meta maxR = .error .indexError) := by
  refine ⟨?_, ?_, ?_, ?_, ?_⟩
  · intro h
    subst h
    rfl
  · intro h
    cases hb : binding with
    | none => rfl
    | some hh =>
        exfalso
        rw [hb] at h
        unfold OpenFile at h
        dsimp only at h
        cases hm : meta hh with
        | none => rw [hm] at h; simp at h
        | some refs =>
            rw [hm] at h
            dsimp only at h
            unfold BlobStream.init at h
            cases hl : refs.getLast? with
            | none => rw [hl] at h; simp at h
            | some last => rw [hl] at h; simp at h
  · intro hh hb hm
    subst hb
    unfold OpenFile
    dsimp only
    rw [hm]
  · intro hh refs hb hm hne
    subst hb
    unfold OpenFile
    dsimp only
    rw [hm]
    dsimp only
    match refs, hne with
    | x :: t, _ =>
        obtain ⟨last, hl⟩ := exists_getLast? t x
        exact ⟨_, by unfold BlobStream.init; rw [hl], rfl, rfl⟩
  · intro hh hb hm
    subst hb
    unfold OpenFile
    dsimp only
    rw [hm]
    rfl

/-- Witness for the amended C9 at a concrete input: hash `[7]` bound
and mapped to the one-reference list, so `OpenFile` returns a stream
over it. -/
theorem claim_C9_witness :
    ([(⟨0, 1, 3⟩ : BlobReference)] ≠ []) ∧
    (∃ s, OpenFile (some [7]) wMeta 5 = .ok s ∧
      s.blob_refs = [⟨0, 1, 3⟩] ∧ s.hash_id = [7]) :=
  ⟨by decide,
    (claim_C9_amended (some [7]) wMeta 5).2.2.2.1 [7] [⟨0, 1, 3⟩] rfl rfl (by decide)⟩

/-- Claim C10: constructing a `BlobStream` with an empty reference list
always raises an exception — the `IndexError` from indexing
`self._blob_refs[-1]`, not any `InvalidReferenceList` error — so every
successfully constructed reader holds a non-empty reference list and
its `size` equals the last reference's `offset + size`. -/
theorem claim_C10 (refs : List BlobReference) (hash : Bytes) (maxR : Nat) :
    (BlobStream.init [] hash maxR = .error .indexError) ∧
    (∀ s, BlobStream.init refs hash maxR = .ok s →
      refs ≠ [] ∧ ∃ last, refs.getLast? = some last ∧
        s.size = last.offset + last.size) := by
  refine ⟨rfl, ?_⟩
  intro s h
  obtain ⟨last, hl, hs⟩ := init_ok h
  refine ⟨?_, last, hl, by rw [hs]; rfl⟩
  intro he
  subst he
  simp at hl

/-- Witness for C10 at a concrete input: the reader constructed from
`badRefs` has `size = 5 + 1 = 6`, the last reference's
`offset + size`. -/
theorem claim_C10_witness :
    badRefs ≠ [] ∧ ∃ last, badRefs.getLast? = some last ∧
      ({ blob_refs := badRefs, hash_id := [], max_unbound_read := 10,
         offset := 0, length := 6, current_ref := none,
         current_chunk := none } : BlobStream).size = last.offset + last.size :=
  (claim_C10 badRefs [] 10).2
    { blob_refs := badRefs, hash_id := [], max_unbound_read := 10,
      offset := 0, length := 6, current_ref := none, current_chunk := none }
    rfl

end FileStore
